import Mathlib

/-!
# Vessel-classification data-preparation utilities: a shallow embedding

This file embeds, in Lean 4, the data-preparation utilities of the
vessel-classification repository that are exercised by
`classification/classification/utility_test.py`: fixed-time random window
extraction from a vessel track (`np_array_random_fixed_time_extract`,
`np_pad_repeat_slice`), width-axis duplication of a 4-D tensor
(`duplicate_double_pad`), and the vessel-metadata CSV loader
(`read_vessel_multiclass_metadata_lines`).

The module `utility.py` that defines these functions is not part of the
source fragment (only its unit tests are), so every definition below is
modelled from the specification and pinned against the concrete
expectations recorded in `utility_test.py`.  Rows of a track are lists of
rationals; the first column of a row is its timestamp.  Rationals stand in
for the floating-point values of the original: every value exercised here
is exactly representable, and no claim concerns rounding.
-/

/-- `max` on the rationals, written with an explicit comparison so that it
evaluates by kernel reduction. -/
def rat_max (a b : Rat) : Rat := if a ≤ b then b else a

/-- `min` on the rationals, written with an explicit comparison so that it
evaluates by kernel reduction. -/
def rat_min (a b : Rat) : Rat := if a ≤ b then a else b

theorem rat_max_eq_max (a b : Rat) : rat_max a b = max a b := by
  simp [rat_max, max_def]

theorem rat_min_eq_min (a b : Rat) : rat_min a b = min a b := by
  simp [rat_min, min_def]

/-- Timestamp of a track row: its first column (`row[0]`); an empty row
reads as time `0`. -/
def row_time (r : List Rat) : Rat := r.headD 0

/-- The timestamp column of a series: `input_series[:, 0]`. -/
def series_times (s : List (List Rat)) : List Rat := s.map row_time

/-- Modelled from the spec: `np.searchsorted(xs, v, side='left')` on an
ascending list — the first insertion index keeping order, i.e. the length
of the prefix of entries strictly below `v`. -/
def searchsorted_left (xs : List Rat) (v : Rat) : Nat :=
  (xs.takeWhile (fun x => decide (x < v))).length

/-- Modelled from the spec: `np.searchsorted(xs, v, side='right')` on an
ascending list — the length of the prefix of entries at most `v`. -/
def searchsorted_right (xs : List Rat) (v : Rat) : Nat :=
  (xs.takeWhile (fun x => decide (x ≤ v))).length

/-- Modelled from the spec: `np_pad_repeat_slice(slice, window_size)` —
series shorter than `window_size` are repeated into the unfilled space:
the slice is concatenated with itself `ceil(window_size / len)` times and
the first `window_size` rows are kept. -/
def np_pad_repeat_slice (s : List (List Rat)) (window_size : Nat) : List (List Rat) :=
  let reps := (window_size + s.length - 1) / s.length
  (List.flatten (List.replicate reps s)).take window_size

/-- Modelled from the spec: the random time offset drawn by
`np_array_random_fixed_time_extract`.  `max_time_offset` is the excess of
the series' time span over `max_time_delta` (clamped at `0`); when it is
`0` no random draw happens and the offset is `0`, otherwise the offset is
`random_state.randint(0, max_time_offset)`, modelled by the function
`rand`. -/
def max_time_offset (s : List (List Rat)) (max_time_delta : Rat) : Rat :=
  rat_max (((series_times s).getLastD 0 - (series_times s).headD 0) - max_time_delta) 0

def extract_time_offset (rand : Rat → Rat → Rat) (s : List (List Rat))
    (max_time_delta : Rat) : Rat :=
  if max_time_offset s max_time_delta = 0 then 0
  else rand 0 (max_time_offset s max_time_delta)

/-- Modelled from the spec: the start row index of the extracted window —
the insertion point of `start_time + time_offset` in the timestamp column,
clamped so that at least `min_timeslice_size` rows remain to the end
(Python's `min(start_index, max(0, input_length - min_timeslice_size))`;
Nat subtraction clamps at `0`). -/
def extract_start_index (rand : Rat → Rat → Rat) (s : List (List Rat))
    (max_time_delta : Rat) (min_timeslice_size : Nat) : Nat :=
  min
    (searchsorted_left (series_times s)
      ((series_times s).headD 0 + extract_time_offset rand s max_time_delta))
    (s.length - min_timeslice_size)

/-- Modelled from the spec: the crop boundary time
`min(input_series[start_index][0] + max_time_delta, end_time)`. -/
def crop_end_time (rand : Rat → Rat → Rat) (s : List (List Rat))
    (max_time_delta : Rat) (min_timeslice_size : Nat) : Rat :=
  rat_min
    ((series_times s).getD (extract_start_index rand s max_time_delta min_timeslice_size) 0
      + max_time_delta)
    ((series_times s).getLastD 0)

/-- Modelled from the spec: the end row index (exclusive) of the extracted
window — at most `output_length` rows past the start, and only rows whose
timestamp is at most the crop boundary time. -/
def extract_end_index (rand : Rat → Rat → Rat) (s : List (List Rat))
    (max_time_delta : Rat) (output_length : Nat) (min_timeslice_size : Nat) : Nat :=
  min (extract_start_index rand s max_time_delta min_timeslice_size + output_length)
    (searchsorted_right (series_times s)
      (crop_end_time rand s max_time_delta min_timeslice_size))

/-- Modelled from the spec: the contiguous window
`input_series[start_index:end_index]` selected before padding. -/
def cropped_series (rand : Rat → Rat → Rat) (s : List (List Rat))
    (max_time_delta : Rat) (output_length : Nat) (min_timeslice_size : Nat) :
    List (List Rat) :=
  (s.take (extract_end_index rand s max_time_delta output_length min_timeslice_size)).drop
    (extract_start_index rand s max_time_delta min_timeslice_size)

/-- Modelled from the spec: `np_array_random_fixed_time_extract` —
extracts a random fixed-time slice from a track (2-d array sorted
ascending by its first, timestamp, column) and pads it to `output_length`
rows by repeating the slice. -/
def np_array_random_fixed_time_extract (rand : Rat → Rat → Rat)
    (s : List (List Rat)) (max_time_delta : Rat) (output_length : Nat)
    (min_timeslice_size : Nat) : List (List Rat) :=
  np_pad_repeat_slice
    (cropped_series rand s max_time_delta output_length min_timeslice_size)
    output_length

/-- The 8-row track of `test_cropped_extract`: times 1..8. -/
def input8 : List (List Rat) :=
  [[1, 5], [2, 4], [3, 7], [4, 9], [5, 3], [6, 8], [7, 2], [8, 9]]

/-- The expected output of `test_cropped_extract`: the first six rows
(times 1..6) followed by the first two rows again. -/
def expected8 : List (List Rat) :=
  [[1, 5], [2, 4], [3, 7], [4, 9], [5, 3], [6, 8], [1, 5], [2, 4]]

/-- The 4-row track of `test_uncropped_extract`. -/
def input4 : List (List Rat) :=
  [[1, 5, 6], [2, 4, 4], [3, 7, 9], [4, 9, 0]]

/-- The 3-row track of `test_uncropped_extract_pad`. -/
def input3 : List (List Rat) :=
  [[1, 5, 6], [2, 4, 4], [3, 7, 9]]

/-- The fake random state of the tests: `randint` always returns `0`. -/
def fake_rand : Rat → Rat → Rat := fun _ _ => 0

example :
    np_array_random_fixed_time_extract fake_rand input8 5 8 50 = expected8 := by
  with_unfolding_all rfl

example : np_array_random_fixed_time_extract fake_rand input4 20 4 50 = input4 := by
  with_unfolding_all rfl

example :
    np_array_random_fixed_time_extract fake_rand input3 20 5 50 =
      [[1, 5, 6], [2, 4, 4], [3, 7, 9], [1, 5, 6], [2, 4, 4]] := by
  with_unfolding_all rfl

/-! ## Helper lemmas on `takeWhile`, `flatten`/`replicate` padding and sorted lists -/

theorem takeWhile_length_le_length {α : Type} (p : α → Bool) (xs : List α) :
    (xs.takeWhile p).length ≤ xs.length :=
  (List.takeWhile_sublist p).length_le

theorem getD_lt_takeWhile_length {α : Type} (p : α → Bool) (d : α) :
    ∀ (xs : List α) (i : Nat), i < (xs.takeWhile p).length → p (xs.getD i d) = true := by
  intro xs
  induction xs with
  | nil => intro i h; simp [List.takeWhile] at h
  | cons x t ih =>
    intro i h
    rw [List.takeWhile_cons] at h
    by_cases hp : p x = true
    · simp only [hp, if_true] at h
      cases i with
      | zero => simpa using hp
      | succ j =>
        simp only [List.length_cons, Nat.succ_lt_succ_iff] at h
        simpa using ih j h
    · simp only [Bool.not_eq_true] at hp
      simp [hp] at h

theorem le_takeWhile_length {α : Type} (p : α → Bool) (d : α) :
    ∀ (xs : List α) (m : Nat), m ≤ xs.length →
      (∀ i, i < m → p (xs.getD i d) = true) → m ≤ (xs.takeWhile p).length := by
  intro xs
  induction xs with
  | nil => intro m hm _; simpa using hm
  | cons x t ih =>
    intro m hm h
    cases m with
    | zero => exact Nat.zero_le _
    | succ j =>
      have hx : p x = true := by simpa using h 0 (Nat.succ_pos j)
      rw [List.takeWhile_cons, hx, if_pos rfl]
      simp only [List.length_cons, Nat.succ_le_succ_iff]
      refine ih j (by simpa using hm) ?_
      intro i hi
      simpa using h (i + 1) (Nat.succ_lt_succ hi)

theorem takeWhile_eq_self_of_all {α : Type} (p : α → Bool) (xs : List α)
    (h : ∀ x ∈ xs, p x = true) : xs.takeWhile p = xs := by
  induction xs with
  | nil => rfl
  | cons x t ih =>
    rw [List.takeWhile_cons, h x (List.mem_cons_self x t), if_pos rfl]
    exact congrArg (x :: ·) (ih fun y hy => h y (List.mem_cons_of_mem x hy))

theorem flatten_replicate_length {α : Type} (s : List α) (reps : Nat) :
    (List.flatten (List.replicate reps s)).length = reps * s.length := by
  rw [List.length_flatten, List.map_replicate]
  induction reps with
  | zero => simp
  | succ n ih => simp [List.replicate_succ, ih, Nat.succ_mul, Nat.add_comm]

theorem ceil_reps_mul_ge (w l : Nat) (hl : 0 < l) : w ≤ (w + l - 1) / l * l := by
  cases w with
  | zero => exact Nat.zero_le _
  | succ v =>
    have hq : (v + 1 + l - 1) / l = v / l + 1 := by
      have : v + 1 + l - 1 = v + l := by omega
      rw [this, Nat.add_div_right v hl]
    rw [hq]
    have hdm := Nat.div_add_mod v l
    have hmod : v % l < l := Nat.mod_lt v hl
    have hmul : (v / l + 1) * l = l * (v / l) + l := by ring
    rw [hmul]
    generalize l * (v / l) = q at hdm
    omega

theorem flatten_replicate_getD {α : Type} (s : List α) (d : α) :
    ∀ (reps k : Nat), k < reps * s.length →
      (List.flatten (List.replicate reps s)).getD k d = s.getD (k % s.length) d := by
  intro reps
  induction reps with
  | zero => intro k h; omega
  | succ n ih =>
    intro k h
    rw [List.replicate_succ, List.flatten_cons]
    by_cases hk : k < s.length
    · rw [List.getD_eq_getElem?_getD, List.getElem?_append_left hk,
        ← List.getD_eq_getElem?_getD, Nat.mod_eq_of_lt hk]
    · push_neg at hk
      rw [List.getD_eq_getElem?_getD, List.getElem?_append_right hk,
        ← List.getD_eq_getElem?_getD, ih (k - s.length) (by
          have h2 : (n + 1) * s.length = n * s.length + s.length := by ring
          omega), Nat.mod_eq_sub_mod hk]

theorem np_pad_repeat_slice_length (s : List (List Rat)) (w : Nat)
    (hs : 0 < s.length) : (np_pad_repeat_slice s w).length = w := by
  unfold np_pad_repeat_slice
  rw [List.length_take, flatten_replicate_length]
  exact Nat.min_eq_left (ceil_reps_mul_ge w s.length hs)

theorem np_pad_repeat_slice_getD (s : List (List Rat)) (w k : Nat) (d : List Rat)
    (hs : 0 < s.length) (hk : k < w) :
    (np_pad_repeat_slice s w).getD k d = s.getD (k % s.length) d := by
  unfold np_pad_repeat_slice
  have hrep : k < ((w + s.length - 1) / s.length) * s.length :=
    Nat.lt_of_lt_of_le hk (ceil_reps_mul_ge w s.length hs)
  rw [List.getD_eq_getElem?_getD, List.getElem?_take, if_pos hk,
    ← List.getD_eq_getElem?_getD]
  exact flatten_replicate_getD s d _ k hrep

theorem mem_np_pad_repeat_slice (s : List (List Rat)) (w : Nat) (x : List Rat)
    (hx : x ∈ np_pad_repeat_slice s w) : x ∈ s := by
  unfold np_pad_repeat_slice at hx
  have hx2 := List.take_subset _ _ hx
  rcases List.mem_flatten.mp hx2 with ⟨l, hl, hxl⟩
  rcases (List.mem_replicate.mp hl) with ⟨-, rfl⟩
  exact hxl

theorem sorted_getD_le (ts : List Rat) (hs : List.Sorted (· ≤ ·) ts)
    (i j : Nat) (hij : i ≤ j) (hj : j < ts.length) :
    ts.getD i 0 ≤ ts.getD j 0 := by
  rcases Nat.eq_or_lt_of_le hij with rfl | hlt
  · exact le_refl _
  · have hi : i < ts.length := Nat.lt_of_lt_of_le hlt (Nat.le_of_lt hj)
    have h2 := List.Sorted.rel_get_of_lt hs (a := ⟨i, hi⟩) (b := ⟨j, hj⟩) hlt
    rw [List.getD_eq_getElem?_getD, List.getD_eq_getElem?_getD,
      List.getElem?_eq_getElem hi, List.getElem?_eq_getElem hj]
    simpa [List.get_eq_getElem] using h2

/-! ## Structural lemmas about the extraction window -/

theorem series_times_length (s : List (List Rat)) :
    (series_times s).length = s.length := by
  simp [series_times]

theorem series_times_getD (s : List (List Rat)) (i : Nat) (hi : i < s.length) :
    (series_times s).getD i 0 = row_time (s.getD i []) := by
  have hi2 : i < (series_times s).length := by simpa [series_times_length] using hi
  rw [List.getD_eq_getElem?_getD, List.getElem?_eq_getElem hi2,
    List.getD_eq_getElem?_getD, List.getElem?_eq_getElem hi]
  simp [series_times]

theorem headD_eq_getD (ts : List Rat) : ts.headD 0 = ts.getD 0 0 := by
  cases ts <;> rfl

theorem getLastD_eq_getD (ts : List Rat) :
    ts.getLastD 0 = ts.getD (ts.length - 1) 0 := by
  rw [List.getLastD_eq_getLast?, List.getLast?_eq_getElem?, List.getD_eq_getElem?_getD]

theorem extract_start_index_lt (rand : Rat → Rat → Rat) (s : List (List Rat))
    (max_time_delta : Rat) (min_timeslice_size : Nat)
    (hs : s ≠ []) (hmts : 0 < min_timeslice_size) :
    extract_start_index rand s max_time_delta min_timeslice_size < s.length := by
  have hlen : 0 < s.length := List.length_pos.mpr hs
  unfold extract_start_index
  refine Nat.lt_of_le_of_lt (Nat.min_le_right _ _) ?_
  omega

theorem start_getD_le_crop_end_time (rand : Rat → Rat → Rat) (s : List (List Rat))
    (max_time_delta : Rat) (min_timeslice_size : Nat)
    (hs : s ≠ []) (hsort : List.Sorted (· ≤ ·) (series_times s))
    (hmtd : 0 ≤ max_time_delta) (hmts : 0 < min_timeslice_size) :
    (series_times s).getD (extract_start_index rand s max_time_delta min_timeslice_size) 0 ≤
      crop_end_time rand s max_time_delta min_timeslice_size := by
  have hsi := extract_start_index_lt rand s max_time_delta min_timeslice_size hs hmts
  have hlen : 0 < s.length := List.length_pos.mpr hs
  have hts := series_times_length s
  have hlast : (series_times s).getD
      (extract_start_index rand s max_time_delta min_timeslice_size) 0 ≤
      (series_times s).getLastD 0 := by
    rw [getLastD_eq_getD]
    exact sorted_getD_le (series_times s) hsort _ _ (by omega) (by omega)
  unfold crop_end_time
  rw [rat_min_eq_min]
  exact le_min (le_add_of_nonneg_right hmtd) hlast

theorem extract_start_lt_end (rand : Rat → Rat → Rat) (s : List (List Rat))
    (max_time_delta : Rat) (output_length : Nat) (min_timeslice_size : Nat)
    (hs : s ≠ []) (hsort : List.Sorted (· ≤ ·) (series_times s))
    (hmtd : 0 ≤ max_time_delta) (hout : 0 < output_length)
    (hmts : 0 < min_timeslice_size) :
    extract_start_index rand s max_time_delta min_timeslice_size <
      extract_end_index rand s max_time_delta output_length min_timeslice_size := by
  have hsi := extract_start_index_lt rand s max_time_delta min_timeslice_size hs hmts
  have hts := series_times_length s
  have hcrop := start_getD_le_crop_end_time rand s max_time_delta min_timeslice_size
    hs hsort hmtd hmts
  have h2 : extract_start_index rand s max_time_delta min_timeslice_size + 1 ≤
      searchsorted_right (series_times s)
        (crop_end_time rand s max_time_delta min_timeslice_size) := by
    unfold searchsorted_right
    refine le_takeWhile_length _ 0 (series_times s) _ (by omega) ?_
    intro i hi
    refine decide_eq_true ?_
    refine le_trans ?_ hcrop
    exact sorted_getD_le (series_times s) hsort _ _ (by omega) (by omega)
  unfold extract_end_index
  exact Nat.lt_of_lt_of_le (Nat.lt_succ_self _) (Nat.le_min.mpr ⟨by omega, h2⟩)

theorem extract_end_index_le (rand : Rat → Rat → Rat) (s : List (List Rat))
    (max_time_delta : Rat) (output_length : Nat) (min_timeslice_size : Nat) :
    extract_end_index rand s max_time_delta output_length min_timeslice_size ≤ s.length := by
  unfold extract_end_index
  refine le_trans (Nat.min_le_right _ _) ?_
  unfold searchsorted_right
  rw [← series_times_length s]
  exact takeWhile_length_le_length _ _

theorem cropped_series_length (rand : Rat → Rat → Rat) (s : List (List Rat))
    (max_time_delta : Rat) (output_length : Nat) (min_timeslice_size : Nat) :
    (cropped_series rand s max_time_delta output_length min_timeslice_size).length =
      extract_end_index rand s max_time_delta output_length min_timeslice_size -
        extract_start_index rand s max_time_delta min_timeslice_size := by
  have he := extract_end_index_le rand s max_time_delta output_length min_timeslice_size
  unfold cropped_series
  rw [List.length_drop, List.length_take]
  omega

theorem cropped_series_length_pos (rand : Rat → Rat → Rat) (s : List (List Rat))
    (max_time_delta : Rat) (output_length : Nat) (min_timeslice_size : Nat)
    (hs : s ≠ []) (hsort : List.Sorted (· ≤ ·) (series_times s))
    (hmtd : 0 ≤ max_time_delta) (hout : 0 < output_length)
    (hmts : 0 < min_timeslice_size) :
    0 < (cropped_series rand s max_time_delta output_length min_timeslice_size).length := by
  rw [cropped_series_length]
  have := extract_start_lt_end rand s max_time_delta output_length min_timeslice_size
    hs hsort hmtd hout hmts
  omega

theorem cropped_series_length_le (rand : Rat → Rat → Rat) (s : List (List Rat))
    (max_time_delta : Rat) (output_length : Nat) (min_timeslice_size : Nat) :
    (cropped_series rand s max_time_delta output_length min_timeslice_size).length ≤
      output_length := by
  rw [cropped_series_length]
  have h : extract_end_index rand s max_time_delta output_length min_timeslice_size ≤
      extract_start_index rand s max_time_delta min_timeslice_size + output_length := by
    unfold extract_end_index
    exact Nat.min_le_left _ _
  omega

theorem cropped_series_getD (rand : Rat → Rat → Rat) (s : List (List Rat))
    (max_time_delta : Rat) (output_length : Nat) (min_timeslice_size : Nat) (i : Nat)
    (hi : i < (cropped_series rand s max_time_delta output_length min_timeslice_size).length) :
    (cropped_series rand s max_time_delta output_length min_timeslice_size).getD i [] =
      s.getD (extract_start_index rand s max_time_delta min_timeslice_size + i) [] := by
  have hlen := cropped_series_length rand s max_time_delta output_length min_timeslice_size
  rw [hlen] at hi
  unfold cropped_series
  rw [List.getD_eq_getElem?_getD, List.getElem?_drop, List.getElem?_take, if_pos (by omega),
    ← List.getD_eq_getElem?_getD]

theorem mem_cropped_time_bounds (rand : Rat → Rat → Rat) (s : List (List Rat))
    (max_time_delta : Rat) (output_length : Nat) (min_timeslice_size : Nat)
    (hsort : List.Sorted (· ≤ ·) (series_times s)) (x : List Rat)
    (hx : x ∈ cropped_series rand s max_time_delta output_length min_timeslice_size) :
    (series_times s).getD (extract_start_index rand s max_time_delta min_timeslice_size) 0 ≤
        row_time x ∧
      row_time x ≤
        (series_times s).getD (extract_start_index rand s max_time_delta min_timeslice_size) 0
          + max_time_delta := by
  have hts := series_times_length s
  have hlen := cropped_series_length rand s max_time_delta output_length min_timeslice_size
  have he := extract_end_index_le rand s max_time_delta output_length min_timeslice_size
  rcases List.mem_iff_getElem.mp hx with ⟨i, hi, hgi⟩
  have hxd : x = (cropped_series rand s max_time_delta output_length min_timeslice_size).getD
      i [] := by
    rw [List.getD_eq_getElem?_getD, List.getElem?_eq_getElem hi, hgi]
    rfl
  have hie : extract_start_index rand s max_time_delta min_timeslice_size + i <
      extract_end_index rand s max_time_delta output_length min_timeslice_size := by
    rw [hlen] at hi; omega
  have hil : extract_start_index rand s max_time_delta min_timeslice_size + i < s.length := by
    omega
  have hxs : x = s.getD (extract_start_index rand s max_time_delta min_timeslice_size + i)
      [] := by
    rw [hxd]
    exact cropped_series_getD rand s max_time_delta output_length min_timeslice_size i hi
  have hrt : row_time x =
      (series_times s).getD
        (extract_start_index rand s max_time_delta min_timeslice_size + i) 0 := by
    rw [hxs, series_times_getD s _ hil]
  constructor
  · rw [hrt]
    exact sorted_getD_le (series_times s) hsort _ _ (by omega) (by omega)
  · have hssr : extract_start_index rand s max_time_delta min_timeslice_size + i <
        searchsorted_right (series_times s)
          (crop_end_time rand s max_time_delta min_timeslice_size) := by
      have := Nat.min_le_right
        (extract_start_index rand s max_time_delta min_timeslice_size + output_length)
        (searchsorted_right (series_times s)
          (crop_end_time rand s max_time_delta min_timeslice_size))
      unfold extract_end_index at hie
      omega
    have hprop := getD_lt_takeWhile_length
      (fun t => decide (t ≤ crop_end_time rand s max_time_delta min_timeslice_size)) 0
      (series_times s)
      (extract_start_index rand s max_time_delta min_timeslice_size + i) hssr
    have hle : (series_times s).getD
        (extract_start_index rand s max_time_delta min_timeslice_size + i) 0 ≤
        crop_end_time rand s max_time_delta min_timeslice_size := of_decide_eq_true hprop
    have hcrop : crop_end_time rand s max_time_delta min_timeslice_size ≤
        (series_times s).getD
          (extract_start_index rand s max_time_delta min_timeslice_size) 0
          + max_time_delta := by
      unfold crop_end_time
      rw [rat_min_eq_min]
      exact min_le_left _ _
    rw [hrt]
    exact le_trans hle hcrop

/-! ## The claims -/

/-- C1.  For every non-empty (ascending-timestamp) input series, a positive
requested window length and a positive minimum slice size,
`np_array_random_fixed_time_extract` returns an array with exactly
`output_length` rows, whether the input is longer than, equal to, or
shorter than `output_length`. -/
theorem extract_length_eq (rand : Rat → Rat → Rat) (s : List (List Rat))
    (max_time_delta : Rat) (output_length : Nat) (min_timeslice_size : Nat)
    (hs : s ≠ []) (hsort : List.Sorted (· ≤ ·) (series_times s))
    (hmtd : 0 ≤ max_time_delta) (hout : 0 < output_length)
    (hmts : 0 < min_timeslice_size) :
    (np_array_random_fixed_time_extract rand s max_time_delta output_length
      min_timeslice_size).length = output_length := by
  unfold np_array_random_fixed_time_extract
  exact np_pad_repeat_slice_length _ _
    (cropped_series_length_pos rand s max_time_delta output_length min_timeslice_size
      hs hsort hmtd hout hmts)

/-- Witness for C1: the 8-row test track is longer than fits in the time
window, the 3-row test track is shorter than the requested 5 rows, and in
both cases the result has exactly the requested number of rows. -/
theorem extract_length_eq_witness :
    (input8 ≠ [] ∧ List.Sorted (· ≤ ·) (series_times input8) ∧
      (np_array_random_fixed_time_extract fake_rand input8 5 8 50).length = 8) ∧
    (input3 ≠ [] ∧ List.Sorted (· ≤ ·) (series_times input3) ∧
      (np_array_random_fixed_time_extract fake_rand input3 20 5 50).length = 5) :=
  ⟨⟨by decide, by decide,
      extract_length_eq fake_rand input8 5 8 50 (by decide) (by decide)
        (by decide) (by decide) (by decide)⟩,
    ⟨by decide, by decide,
      extract_length_eq fake_rand input3 20 5 50 (by decide) (by decide)
        (by decide) (by decide) (by decide)⟩⟩

/-- C2.  When the series' time span exceeds `max_time_delta`, the selected
window is time-cropped: any two rows of the output are at most
`max_time_delta` apart in time.  On the 8-row test track with times 1..8,
`max_time_delta = 5` and a random state returning offset 0, the selected
window is exactly the first 6 rows (times 1..6), and the output is that
window padded back to 8 rows. -/
theorem extract_window_span_le (rand : Rat → Rat → Rat) (s : List (List Rat))
    (max_time_delta : Rat) (output_length : Nat) (min_timeslice_size : Nat)
    (hsort : List.Sorted (· ≤ ·) (series_times s))
    (_hspan : max_time_delta <
      (series_times s).getLastD 0 - (series_times s).headD 0) :
    (∀ x ∈ np_array_random_fixed_time_extract rand s max_time_delta output_length
        min_timeslice_size,
      ∀ y ∈ np_array_random_fixed_time_extract rand s max_time_delta output_length
        min_timeslice_size,
      row_time x - row_time y ≤ max_time_delta) ∧
    cropped_series fake_rand input8 5 8 50 = input8.take 6 ∧
    np_array_random_fixed_time_extract fake_rand input8 5 8 50 = expected8 := by
  refine ⟨?_, by with_unfolding_all rfl, by with_unfolding_all rfl⟩
  intro x hx y hy
  have hx2 := mem_cropped_time_bounds rand s max_time_delta output_length
    min_timeslice_size hsort x (mem_np_pad_repeat_slice _ _ _ hx)
  have hy2 := mem_cropped_time_bounds rand s max_time_delta output_length
    min_timeslice_size hsort y (mem_np_pad_repeat_slice _ _ _ hy)
  linarith [hx2.2, hy2.1]

/-- Witness for C2: on the 8-row test track the hypotheses hold and any
two output rows are within time 5 of each other. -/
theorem extract_window_span_le_witness :
    List.Sorted (· ≤ ·) (series_times input8) ∧
    (5 : Rat) < (series_times input8).getLastD 0 - (series_times input8).headD 0 ∧
    ∀ x ∈ np_array_random_fixed_time_extract fake_rand input8 5 8 50,
      ∀ y ∈ np_array_random_fixed_time_extract fake_rand input8 5 8 50,
      row_time x - row_time y ≤ 5 :=
  ⟨by decide, by with_unfolding_all decide,
    (extract_window_span_le fake_rand input8 5 8 50 (by decide)
      (by with_unfolding_all decide)).1⟩

/-- C3.  Whenever the selected (possibly time-cropped) window has fewer
rows than `output_length`, the result is the window padded to
`output_length` by wrapping around to the window's initial rows in their
original order: row `k` of the result is row `k mod (window length)` of
the window (in particular no zero padding is introduced — every output
row is a row of the window). -/
theorem extract_pad_wraps (rand : Rat → Rat → Rat) (s : List (List Rat))
    (max_time_delta : Rat) (output_length : Nat) (min_timeslice_size : Nat)
    (hs : s ≠ []) (hsort : List.Sorted (· ≤ ·) (series_times s))
    (hmtd : 0 ≤ max_time_delta) (hout : 0 < output_length)
    (hmts : 0 < min_timeslice_size)
    (_hshort : (cropped_series rand s max_time_delta output_length
      min_timeslice_size).length < output_length)
    (k : Nat) (hk : k < output_length) :
    (np_array_random_fixed_time_extract rand s max_time_delta output_length
        min_timeslice_size).getD k [] =
      (cropped_series rand s max_time_delta output_length min_timeslice_size).getD
        (k % (cropped_series rand s max_time_delta output_length
          min_timeslice_size).length) [] := by
  unfold np_array_random_fixed_time_extract
  exact np_pad_repeat_slice_getD _ _ _ _
    (cropped_series_length_pos rand s max_time_delta output_length min_timeslice_size
      hs hsort hmtd hout hmts) hk

/-- Witness for C3: on the 3-row test track padded to 5 rows, output row 4
wraps around to window row 1. -/
theorem extract_pad_wraps_witness :
    (cropped_series fake_rand input3 20 5 50).length < 5 ∧
    (np_array_random_fixed_time_extract fake_rand input3 20 5 50).getD 4 [] =
      (cropped_series fake_rand input3 20 5 50).getD
        (4 % (cropped_series fake_rand input3 20 5 50).length) [] :=
  ⟨by with_unfolding_all decide,
    extract_pad_wraps fake_rand input3 20 5 50 (by decide) (by decide) (by decide)
      (by decide) (by decide) (by with_unfolding_all decide) 4 (by decide)⟩

theorem np_pad_repeat_slice_length_self (s : List (List Rat)) (hs : 0 < s.length) :
    np_pad_repeat_slice s s.length = s := by
  unfold np_pad_repeat_slice
  have hreps : (s.length + s.length - 1) / s.length = 1 :=
    Nat.div_eq_of_lt_le (by omega) (by omega)
  rw [hreps]
  simp

/-- C4.  On a series whose row count equals `output_length` and whose time
span is within `max_time_delta`, the extraction is the identity: the input
comes back unchanged, for every random source and every minimum slice
size. -/
theorem extract_identity_of_fit (rand : Rat → Rat → Rat) (s : List (List Rat))
    (max_time_delta : Rat) (min_timeslice_size : Nat)
    (hs : s ≠ []) (hsort : List.Sorted (· ≤ ·) (series_times s))
    (hspan : (series_times s).getLastD 0 - (series_times s).headD 0 ≤ max_time_delta) :
    np_array_random_fixed_time_extract rand s max_time_delta s.length
      min_timeslice_size = s := by
  have hlen : 0 < s.length := List.length_pos.mpr hs
  have hts := series_times_length s
  have h0 : max_time_offset s max_time_delta = 0 := by
    unfold max_time_offset rat_max
    rw [if_pos (sub_nonpos.mpr hspan)]
  have hoff : extract_time_offset rand s max_time_delta = 0 := by
    unfold extract_time_offset
    rw [h0]
    simp
  have hstart0 : searchsorted_left (series_times s)
      ((series_times s).headD 0 + extract_time_offset rand s max_time_delta) = 0 := by
    rw [hoff, add_zero]
    unfold searchsorted_left
    cases hcase : series_times s with
    | nil => rfl
    | cons t rest =>
      rw [List.takeWhile_cons]
      simp [lt_irrefl]
  have hsi : extract_start_index rand s max_time_delta min_timeslice_size = 0 := by
    unfold extract_start_index
    rw [hstart0]
    exact Nat.zero_min _
  have hcrop : crop_end_time rand s max_time_delta min_timeslice_size =
      (series_times s).getLastD 0 := by
    unfold crop_end_time
    rw [hsi, rat_min_eq_min]
    refine min_eq_right ?_
    have h1 : (series_times s).getLastD 0 ≤ max_time_delta + (series_times s).headD 0 :=
      sub_le_iff_le_add.mp hspan
    rw [headD_eq_getD] at h1
    linarith
  have hssr : searchsorted_right (series_times s) ((series_times s).getLastD 0) =
      s.length := by
    unfold searchsorted_right
    rw [takeWhile_eq_self_of_all _ _ ?_, series_times_length]
    intro x hxmem
    rcases List.mem_iff_getElem.mp hxmem with ⟨i, hi, hgi⟩
    refine decide_eq_true ?_
    have hxd : x = (series_times s).getD i 0 := by
      rw [List.getD_eq_getElem?_getD, List.getElem?_eq_getElem hi, hgi]
      rfl
    rw [hxd, getLastD_eq_getD]
    exact sorted_getD_le (series_times s) hsort _ _ (by omega) (by omega)
  have he : extract_end_index rand s max_time_delta s.length min_timeslice_size =
      s.length := by
    unfold extract_end_index
    rw [hsi, hcrop, hssr]
    simp
  have hcropped : cropped_series rand s max_time_delta s.length min_timeslice_size = s := by
    unfold cropped_series
    rw [hsi, he, List.take_length, List.drop_zero]
  unfold np_array_random_fixed_time_extract
  rw [hcropped]
  exact np_pad_repeat_slice_length_self s hlen

/-- Witness for C4: the 4-row test track with window length 4 and
`max_time_delta = 20` comes back unchanged. -/
theorem extract_identity_of_fit_witness :
    input4 ≠ [] ∧ List.Sorted (· ≤ ·) (series_times input4) ∧
    (series_times input4).getLastD 0 - (series_times input4).headD 0 ≤ 20 ∧
    np_array_random_fixed_time_extract fake_rand input4 20 input4.length 50 = input4 :=
  ⟨by decide, by decide, by with_unfolding_all decide,
    extract_identity_of_fit fake_rand input4 20 50 (by decide) (by decide)
      (by with_unfolding_all decide)⟩

/-! ## `duplicate_double_pad` on 4-D tensors -/

/-- A 4-D tensor of shape `[batch, height, width, depth]` as nested
lists: the innermost lists are the depth vectors. -/
abbrev Tensor4 := List (List (List (List Rat)))

/-- Modelled from the spec: duplication of a width row (a depth vector)
— each entry along the width axis is emitted twice, consecutively. -/
def dup_row (row : List (List Rat)) : List (List Rat) :=
  row.flatMap (fun v => [v, v])

/-- Modelled from the spec: `duplicate_double_pad` — duplicates a 4-D
tensor along its width axis, leaving batch, height and depth alone: each
original width entry appears exactly twice, consecutively and in the
original order. -/
def duplicate_double_pad (t : Tensor4) : Tensor4 :=
  t.map (fun img => img.map dup_row)

theorem dup_row_length (row : List (List Rat)) :
    (dup_row row).length = 2 * row.length := by
  induction row with
  | nil => rfl
  | cons v rest ih =>
    simp only [dup_row, List.flatMap_cons] at ih ⊢
    simp [ih]
    omega

theorem dup_row_getD_even (row : List (List Rat)) :
    ∀ k, k < row.length → (dup_row row).getD (2 * k) [] = row.getD k [] := by
  induction row with
  | nil => intro k hk; simp at hk
  | cons v rest ih =>
    intro k hk
    cases k with
    | zero => rfl
    | succ j =>
      have hcons : dup_row (v :: rest) = v :: v :: dup_row rest := rfl
      have h2 : 2 * (j + 1) = 2 * j + 1 + 1 := by ring
      rw [hcons, h2]
      simp only [List.getD_cons_succ]
      exact ih j (by simpa using Nat.lt_of_succ_lt_succ hk)

theorem dup_row_getD_odd (row : List (List Rat)) :
    ∀ k, k < row.length → (dup_row row).getD (2 * k + 1) [] = row.getD k [] := by
  induction row with
  | nil => intro k hk; simp at hk
  | cons v rest ih =>
    intro k hk
    cases k with
    | zero => rfl
    | succ j =>
      have hcons : dup_row (v :: rest) = v :: v :: dup_row rest := rfl
      have h2 : 2 * (j + 1) + 1 = 2 * j + 1 + 1 + 1 := by ring
      rw [hcons, h2]
      simp only [List.getD_cons_succ]
      exact ih j (by simpa using Nat.lt_of_succ_lt_succ hk)

theorem getD_map_of_lt {α β : Type} (f : α → β) (l : List α) (i : Nat) (d : α) (d2 : β)
    (hi : i < l.length) : (l.map f).getD i d2 = f (l.getD i d) := by
  have hi2 : i < (l.map f).length := by simpa using hi
  rw [List.getD_eq_getElem?_getD, List.getElem?_eq_getElem hi2,
    List.getD_eq_getElem?_getD, List.getElem?_eq_getElem hi]
  simp

/-- C5.  On a 4-D tensor `[batch, height, width, depth]`,
`duplicate_double_pad` keeps the batch and height dimensions, doubles the
width dimension, and places each original width entry exactly twice,
consecutively and in the original order: output entries `2k` and `2k + 1`
both equal input entry `k` (so depth vectors are carried over unchanged). -/
theorem duplicate_double_pad_spec (t : Tensor4) (b h k : Nat)
    (hb : b < t.length) (hh : h < (t.getD b []).length)
    (hk : k < ((t.getD b []).getD h []).length) :
    (duplicate_double_pad t).length = t.length ∧
    ((duplicate_double_pad t).getD b []).length = (t.getD b []).length ∧
    (((duplicate_double_pad t).getD b []).getD h []).length =
      2 * ((t.getD b []).getD h []).length ∧
    (((duplicate_double_pad t).getD b []).getD h []).getD (2 * k) [] =
      ((t.getD b []).getD h []).getD k [] ∧
    (((duplicate_double_pad t).getD b []).getD h []).getD (2 * k + 1) [] =
      ((t.getD b []).getD h []).getD k [] := by
  have h1 : (duplicate_double_pad t).getD b [] = (t.getD b []).map dup_row :=
    getD_map_of_lt _ t b [] [] hb
  have h2 : ((duplicate_double_pad t).getD b []).getD h [] =
      dup_row ((t.getD b []).getD h []) := by
    rw [h1]
    exact getD_map_of_lt _ _ h [] [] hh
  refine ⟨by simp [duplicate_double_pad], by rw [h1]; simp, ?_, ?_, ?_⟩
  · rw [h2, dup_row_length]
  · rw [h2]
    exact dup_row_getD_even _ k hk
  · rw [h2]
    exact dup_row_getD_odd _ k hk

/-- The 1x1x4x3 tensor of `testReshapePad`. -/
def test_tensor : Tensor4 :=
  [[[[1, 2, 3], [4, 5, 6], [7, 8, 9], [10, 11, 12]]]]

/-- The expected output of `testReshapePad`: every width row twice. -/
def test_tensor_expected : Tensor4 :=
  [[[[1, 2, 3], [1, 2, 3], [4, 5, 6], [4, 5, 6], [7, 8, 9], [7, 8, 9],
     [10, 11, 12], [10, 11, 12]]]]

/-- Witness for C5: the tensor of the unit test maps to its expected
doubled form, and entries `2k`, `2k+1` of the output width axis equal
entry `k` of the input for `k = 3`. -/
theorem duplicate_double_pad_spec_witness :
    duplicate_double_pad test_tensor = test_tensor_expected ∧
    (((duplicate_double_pad test_tensor).getD 0 []).getD 0 []).getD (2 * 3) [] =
      ((test_tensor.getD 0 []).getD 0 []).getD 3 [] ∧
    (((duplicate_double_pad test_tensor).getD 0 []).getD 0 []).getD (2 * 3 + 1) [] =
      ((test_tensor.getD 0 []).getD 0 []).getD 3 [] :=
  ⟨by decide,
    (duplicate_double_pad_spec test_tensor 0 0 3 (by decide) (by decide)
      (by decide)).2.2.2.1,
    (duplicate_double_pad_spec test_tensor 0 0 3 (by decide) (by decide)
      (by decide)).2.2.2.2⟩

/-- C9.  The numeric transforms are deterministic, pure functions: the
extraction depends only on its input series, parameters and the values the
random source returns, and `duplicate_double_pad` depends only on its
input tensor; in this embedding both are Lean functions, so no call can
mutate its arguments. -/
theorem transforms_deterministic (r1 r2 : Rat → Rat → Rat) (s : List (List Rat))
    (max_time_delta : Rat) (output_length min_timeslice_size : Nat)
    (t1 t2 : Tensor4)
    (hr : ∀ a b, r1 a b = r2 a b) (ht : t1 = t2) :
    np_array_random_fixed_time_extract r1 s max_time_delta output_length
        min_timeslice_size =
      np_array_random_fixed_time_extract r2 s max_time_delta output_length
        min_timeslice_size ∧
    duplicate_double_pad t1 = duplicate_double_pad t2 := by
  have hr2 : r1 = r2 := funext fun a => funext fun b => hr a b
  subst hr2
  subst ht
  exact ⟨rfl, rfl⟩

/-- Witness for C9: two runs on the test track with the same (fake)
random source, and two runs on equal test tensors, agree. -/
theorem transforms_deterministic_witness :
    np_array_random_fixed_time_extract fake_rand input8 5 8 50 =
      np_array_random_fixed_time_extract fake_rand input8 5 8 50 ∧
    duplicate_double_pad test_tensor = duplicate_double_pad test_tensor :=
  transforms_deterministic fake_rand fake_rand input8 5 8 50 test_tensor test_tensor
    (fun _ _ => rfl) rfl

/-! ## Vessel metadata loading -/

/-- A parsed CSV line of the vessel metadata file: the `mmsi`, `label`
and `length` columns, all raw strings (as `csv.DictReader` yields them). -/
structure Row where
  mmsi : String
  label : String
  length : String
  deriving DecidableEq

/-- Numeric value of a decimal-digit character. -/
def digit_val (c : Char) : Nat := c.toNat - 48

/-- Modelled from the spec: `int(row['mmsi'])` on a numeric string. -/
def parse_mmsi (s : String) : Nat :=
  s.data.foldl (fun acc c => 10 * acc + digit_val c) 0

def TRAINING_SPLIT : String := "Training"

def TEST_SPLIT : String := "Test"

/-- Modelled from the spec: the deterministic assignment of an MMSI to the
'Training' or 'Test' split.  The concrete hash of the missing `utility.py`
is unavailable; the assignment is reconstructed from the memberships and
class weights that `VesselMetadataFileReaderTest` records (100001 and
100005 in 'Test', 100002 and 100003 in 'Training', and a test split whose
class counts are one Longliner against three Trawlers). -/
def vessel_split (mmsi : Nat) : String :=
  if mmsi = 100001 ∨ mmsi = 100005 ∨ mmsi = 100006 ∨ mmsi = 100010 then TEST_SPLIT
  else TRAINING_SPLIT

/-- Modelled from the spec: a CSV row participates when its MMSI is among
the available vessels and its label is non-empty. -/
def row_included (available : List Nat) (r : Row) : Bool :=
  decide (parse_mmsi r.mmsi ∈ available) && decide (r.label ≠ "")

/-- The rows that participate at all. -/
def included_rows (available : List Nat) (lines : List Row) : List Row :=
  lines.filter (row_included available)

/-- Modelled from the spec: the participating rows of one dataset split. -/
def split_rows (available : List Nat) (lines : List Row) (split : String) : List Row :=
  (included_rows available lines).filter
    (fun r => vessel_split (parse_mmsi r.mmsi) == split)

/-- Number of rows in a split carrying a given label. -/
def label_count (rows : List Row) (lab : String) : Nat :=
  (rows.filter (fun r => r.label == lab)).length

/-- The largest per-label count of a split. -/
def max_label_count (rows : List Row) : Nat :=
  (rows.map (fun r => label_count rows r.label)).foldr max 0

/-- Modelled from the spec: class-frequency balancing — the weight of a
label inside a split is the split's largest class count divided by the
label's own count. -/
def split_weight (rows : List Row) (lab : String) : Rat :=
  (max_label_count rows : Rat) / (label_count rows lab : Rat)

/-- Modelled from the spec: the `fishing_range_training_upweight` factor,
applied to vessels present in the fishing-range map and inert (the test
passes an empty map and factor 1) otherwise. -/
def fishing_factor (fishing_mmsis : List Nat) (upweight : Rat) (mmsi : Nat) : Rat :=
  if mmsi ∈ fishing_mmsis then upweight else 1

/-- One split's metadata: every participating row of the split, keyed by
its parsed MMSI and paired with the row and its weight. -/
def split_entries (available : List Nat) (lines : List Row)
    (fishing_mmsis : List Nat) (upweight : Rat) (split : String) :
    List (Nat × Row × Rat) :=
  (split_rows available lines split).map (fun r =>
    (parse_mmsi r.mmsi, r,
      split_weight (split_rows available lines split) r.label *
        fishing_factor fishing_mmsis upweight (parse_mmsi r.mmsi)))

/-- The result of `read_vessel_multiclass_metadata_lines`: per-split
vessel metadata. -/
structure VesselMetadata where
  metadata_by_split : List (String × List (Nat × Row × Rat))
  deriving DecidableEq

/-- Modelled from the spec: `read_vessel_multiclass_metadata_lines` —
keep the available, labelled vessels, partition them into the 'Training'
and 'Test' splits, and weight every vessel by its split's class balance
(times the fishing-range factor). -/
def read_vessel_multiclass_metadata_lines (available : List Nat) (lines : List Row)
    (fishing_mmsis : List Nat) (upweight : Rat) : VesselMetadata :=
  ⟨[(TRAINING_SPLIT, split_entries available lines fishing_mmsis upweight TRAINING_SPLIT),
    (TEST_SPLIT, split_entries available lines fishing_mmsis upweight TEST_SPLIT)]⟩

/-- All vessel entries, across the splits. -/
def VesselMetadata.all_entries (vm : VesselMetadata) : List (Nat × Row × Rat) :=
  (vm.metadata_by_split.map Prod.snd).flatten

/-- `vessel_weight(mmsi)`: the weight stored with the vessel's metadata
(0 when the vessel is absent, where the original raises). -/
def VesselMetadata.vessel_weight (vm : VesselMetadata) (mmsi : Nat) : Rat :=
  match vm.all_entries.find? (fun e => e.1 == mmsi) with
  | some e => e.2.2
  | none => 0

/-- The 13 data lines of `test_metadata_file_reader`. -/
def test_lines : List Row :=
  [⟨"100001", "Longliner", "10.0"⟩, ⟨"100002", "Longliner", "24.0"⟩,
   ⟨"100003", "Longliner", "7.0"⟩, ⟨"100004", "Longliner", "8.0"⟩,
   ⟨"100005", "Trawler", "10.0"⟩, ⟨"100006", "Trawler", "24.0"⟩,
   ⟨"100007", "Passenger", "24.0"⟩, ⟨"100008", "Trawler", "24.0"⟩,
   ⟨"100009", "Trawler", "10.0"⟩, ⟨"100010", "Trawler", "24.0"⟩,
   ⟨"100011", "Tug", "60.0"⟩, ⟨"100012", "Tug", "5.0"⟩,
   ⟨"100013", "Tug", "24.0"⟩]

/-- `set(range(100001, 100013))`: the available vessels of the test. -/
def available12 : List Nat :=
  [100001, 100002, 100003, 100004, 100005, 100006, 100007, 100008, 100009,
   100010, 100011, 100012]

example :
    (read_vessel_multiclass_metadata_lines available12 test_lines [] 1).metadata_by_split.map
      Prod.fst = [TRAINING_SPLIT, TEST_SPLIT] := by
  with_unfolding_all rfl

example :
    (100001, (⟨"100001", "Longliner", "10.0"⟩ : Row), (3 : Rat)) ∈
      split_entries available12 test_lines [] 1 TEST_SPLIT := by
  with_unfolding_all decide

example :
    (100005, (⟨"100005", "Trawler", "10.0"⟩ : Row), (1 : Rat)) ∈
      split_entries available12 test_lines [] 1 TEST_SPLIT := by
  with_unfolding_all decide

example :
    (100002, (⟨"100002", "Longliner", "24.0"⟩ : Row), (1 : Rat)) ∈
      split_entries available12 test_lines [] 1 TRAINING_SPLIT := by
  with_unfolding_all decide

example :
    (100003, (⟨"100003", "Longliner", "7.0"⟩ : Row), (1 : Rat)) ∈
      split_entries available12 test_lines [] 1 TRAINING_SPLIT := by
  with_unfolding_all decide

/-- C7.  On the 13-row CSV of the unit test (Longliner x4, Trawler x5,
Passenger x1, Tug x3), available vessels 100001..100012 and fishing-range
upweight 1, the class-frequency weights come out as 3.0 for 100001, 1.0
for 100002 and 1.5 for 100011. -/
theorem metadata_test_weights :
    (read_vessel_multiclass_metadata_lines available12 test_lines [] 1).vessel_weight
        100001 = 3 ∧
    (read_vessel_multiclass_metadata_lines available12 test_lines [] 1).vessel_weight
        100002 = 1 ∧
    (read_vessel_multiclass_metadata_lines available12 test_lines [] 1).vessel_weight
        100011 = 3 / 2 := by
  refine ⟨?_, ?_, ?_⟩ <;> with_unfolding_all rfl

theorem mem_split_entries_elim (available : List Nat) (lines : List Row)
    (fishing_mmsis : List Nat) (upweight : Rat) (sp : String) (e : Nat × Row × Rat)
    (he : e ∈ split_entries available lines fishing_mmsis upweight sp) :
    ∃ r2, r2 ∈ included_rows available lines ∧
      vessel_split (parse_mmsi r2.mmsi) = sp ∧
      e = (parse_mmsi r2.mmsi, r2,
        split_weight (split_rows available lines sp) r2.label *
          fishing_factor fishing_mmsis upweight (parse_mmsi r2.mmsi)) := by
  rcases List.mem_map.mp he with ⟨r2, h2, rfl⟩
  rcases List.mem_filter.mp h2 with ⟨h3, h4⟩
  exact ⟨r2, h3, by simpa using h4, rfl⟩

theorem mem_split_entries_intro (available : List Nat) (lines : List Row)
    (fishing_mmsis : List Nat) (upweight : Rat) (r : Row)
    (hrm : r ∈ included_rows available lines) :
    (parse_mmsi r.mmsi, r,
        split_weight (split_rows available lines (vessel_split (parse_mmsi r.mmsi)))
            r.label *
          fishing_factor fishing_mmsis upweight (parse_mmsi r.mmsi)) ∈
      split_entries available lines fishing_mmsis upweight
        (vessel_split (parse_mmsi r.mmsi)) := by
  refine List.mem_map.mpr ⟨r, ?_, rfl⟩
  exact List.mem_filter.mpr ⟨hrm, by simp⟩

/-- C6.  `read_vessel_multiclass_metadata_lines` returns metadata keyed by
MMSI and partitioned into the 'Training' and 'Test' splits: both split
names are present (in that order), every included vessel appears under
exactly one split — the one its MMSI is assigned to — mapped to the pair
of its CSV row and its weight, and `vessel_weight` returns the weight
stored in that pair.  (MMSIs of the included rows are assumed distinct.) -/
theorem metadata_split_partition (available : List Nat) (lines : List Row)
    (fishing_mmsis : List Nat) (upweight : Rat)
    (hnodup : ((included_rows available lines).map (fun r => parse_mmsi r.mmsi)).Nodup)
    (r : Row) (hr : r ∈ lines) (hinc : row_included available r = true) :
    (read_vessel_multiclass_metadata_lines available lines fishing_mmsis
        upweight).metadata_by_split.map Prod.fst = [TRAINING_SPLIT, TEST_SPLIT] ∧
    ∃ w : Rat,
      (∀ sp es, (sp, es) ∈ (read_vessel_multiclass_metadata_lines available lines
          fishing_mmsis upweight).metadata_by_split →
        ((parse_mmsi r.mmsi, r, w) ∈ es ↔ sp = vessel_split (parse_mmsi r.mmsi))) ∧
      (∀ sp es e, (sp, es) ∈ (read_vessel_multiclass_metadata_lines available lines
          fishing_mmsis upweight).metadata_by_split → e ∈ es →
        e.1 = parse_mmsi r.mmsi →
        sp = vessel_split (parse_mmsi r.mmsi) ∧ e = (parse_mmsi r.mmsi, r, w)) ∧
      (read_vessel_multiclass_metadata_lines available lines fishing_mmsis
        upweight).vessel_weight (parse_mmsi r.mmsi) = w := by
  have hrm : r ∈ included_rows available lines := List.mem_filter.mpr ⟨hr, hinc⟩
  have huniq : ∀ r2 ∈ included_rows available lines,
      parse_mmsi r2.mmsi = parse_mmsi r.mmsi → r2 = r := by
    intro r2 h2 he
    exact List.inj_on_of_nodup_map hnodup h2 hrm he
  refine ⟨rfl, ⟨split_weight (split_rows available lines
      (vessel_split (parse_mmsi r.mmsi))) r.label *
    fishing_factor fishing_mmsis upweight (parse_mmsi r.mmsi), ?_, ?_, ?_⟩⟩
  case _ =>
    intro sp es hsp
    have hes : es = split_entries available lines fishing_mmsis upweight sp := by
      simp only [read_vessel_multiclass_metadata_lines, List.mem_cons,
        List.not_mem_nil, or_false, Prod.mk.injEq] at hsp
      rcases hsp with ⟨h1, h2⟩ | ⟨h1, h2⟩ <;> rw [h2, h1]
    subst hes
    constructor
    · intro hmem
      rcases mem_split_entries_elim available lines fishing_mmsis upweight sp _ hmem
        with ⟨r2, hr2, hsp2, heq⟩
      have hm2 : parse_mmsi r2.mmsi = parse_mmsi r.mmsi := (Prod.mk.injEq _ _ _ _).mp heq |>.1.symm
      have : r2 = r := huniq r2 hr2 hm2
      subst this
      rw [← hsp2]
    · intro hsp2
      rw [hsp2]
      exact mem_split_entries_intro available lines fishing_mmsis upweight r hrm
  case _ =>
    intro sp es e hsp hee hem
    have hes : es = split_entries available lines fishing_mmsis upweight sp := by
      simp only [read_vessel_multiclass_metadata_lines, List.mem_cons,
        List.not_mem_nil, or_false, Prod.mk.injEq] at hsp
      rcases hsp with ⟨h1, h2⟩ | ⟨h1, h2⟩ <;> rw [h2, h1]
    subst hes
    rcases mem_split_entries_elim available lines fishing_mmsis upweight sp _ hee
      with ⟨r2, hr2, hsp2, heq⟩
    have hm2 : parse_mmsi r2.mmsi = parse_mmsi r.mmsi := by rw [heq] at hem; exact hem
    have hr2r : r2 = r := huniq r2 hr2 hm2
    subst hr2r
    refine ⟨hsp2.symm, ?_⟩
    rw [heq, hm2, hsp2]
  case _ =>
    have hmem : (parse_mmsi r.mmsi, r,
        split_weight (split_rows available lines (vessel_split (parse_mmsi r.mmsi)))
            r.label *
          fishing_factor fishing_mmsis upweight (parse_mmsi r.mmsi)) ∈
        (read_vessel_multiclass_metadata_lines available lines fishing_mmsis
          upweight).all_entries := by
      have hin := mem_split_entries_intro available lines fishing_mmsis upweight r hrm
      have hall : (read_vessel_multiclass_metadata_lines available lines fishing_mmsis
          upweight).all_entries =
          split_entries available lines fishing_mmsis upweight TRAINING_SPLIT ++
            (split_entries available lines fishing_mmsis upweight TEST_SPLIT ++ []) := rfl
      rw [hall]
      by_cases hc : parse_mmsi r.mmsi = 100001 ∨ parse_mmsi r.mmsi = 100005 ∨
          parse_mmsi r.mmsi = 100006 ∨ parse_mmsi r.mmsi = 100010
      · have hv : vessel_split (parse_mmsi r.mmsi) = TEST_SPLIT := by
          simp [vessel_split, hc]
        rw [hv] at hin ⊢
        exact List.mem_append.mpr (Or.inr (List.mem_append.mpr (Or.inl hin)))
      · have hv : vessel_split (parse_mmsi r.mmsi) = TRAINING_SPLIT := by
          simp [vessel_split, hc]
        rw [hv] at hin ⊢
        exact List.mem_append.mpr (Or.inl hin)
    unfold VesselMetadata.vessel_weight
    cases hfind : ((read_vessel_multiclass_metadata_lines available lines fishing_mmsis
        upweight).all_entries.find? (fun e => e.1 == parse_mmsi r.mmsi)) with
    | none =>
      exfalso
      have := List.find?_eq_none.mp hfind _ hmem
      simp at this
    | some e =>
      have hpe : e.1 = parse_mmsi r.mmsi := by
        have := List.find?_some hfind
        simpa using this
      have hein : e ∈ (read_vessel_multiclass_metadata_lines available lines fishing_mmsis
          upweight).all_entries := List.mem_of_find?_eq_some hfind
      have hall : (read_vessel_multiclass_metadata_lines available lines fishing_mmsis
          upweight).all_entries =
          split_entries available lines fishing_mmsis upweight TRAINING_SPLIT ++
            (split_entries available lines fishing_mmsis upweight TEST_SPLIT ++ []) := rfl
      rw [hall] at hein
      have hcase : ∃ sp, e ∈ split_entries available lines fishing_mmsis upweight sp := by
        rcases List.mem_append.mp hein with h | h
        · exact ⟨TRAINING_SPLIT, h⟩
        · rcases List.mem_append.mp h with h2 | h2
          · exact ⟨TEST_SPLIT, h2⟩
          · simp at h2
      rcases hcase with ⟨sp, hesp⟩
      rcases mem_split_entries_elim available lines fishing_mmsis upweight sp _ hesp
        with ⟨r2, hr2, hsp2, heq⟩
      have hm2 : parse_mmsi r2.mmsi = parse_mmsi r.mmsi := by rw [heq] at hpe; exact hpe
      have hr2r : r2 = r := huniq r2 hr2 hm2
      subst hr2r
      rw [heq, hm2, hsp2]

/-- The first data row of the test CSV. -/
def row100001 : Row := ⟨"100001", "Longliner", "10.0"⟩

/-- Witness for C6: on the test CSV (whose included rows have distinct
MMSIs) and its first row, vessel 100001 sits in exactly one split with its
row and weight, and `vessel_weight` reads that weight back. -/
theorem metadata_split_partition_witness :
    (read_vessel_multiclass_metadata_lines available12 test_lines []
        1).metadata_by_split.map Prod.fst = [TRAINING_SPLIT, TEST_SPLIT] ∧
    ∃ w : Rat,
      (∀ sp es, (sp, es) ∈ (read_vessel_multiclass_metadata_lines available12 test_lines
          [] 1).metadata_by_split →
        ((parse_mmsi row100001.mmsi, row100001, w) ∈ es ↔
          sp = vessel_split (parse_mmsi row100001.mmsi))) ∧
      (∀ sp es e, (sp, es) ∈ (read_vessel_multiclass_metadata_lines available12 test_lines
          [] 1).metadata_by_split → e ∈ es →
        e.1 = parse_mmsi row100001.mmsi →
        sp = vessel_split (parse_mmsi row100001.mmsi) ∧
          e = (parse_mmsi row100001.mmsi, row100001, w)) ∧
      (read_vessel_multiclass_metadata_lines available12 test_lines []
        1).vessel_weight (parse_mmsi row100001.mmsi) = w :=
  metadata_split_partition available12 test_lines [] 1 (by decide) row100001
    (by decide) (by decide)

/-- C10.  A CSV row whose MMSI is not among the available vessels is
ignored entirely: dropping it does not change the returned metadata at
all (so it contributes to no vessel's weight), and its MMSI keys no entry
of any split. -/
theorem metadata_excludes_unavailable (available : List Nat) (pre post : List Row)
    (r : Row) (fishing_mmsis : List Nat) (upweight : Rat)
    (hna : parse_mmsi r.mmsi ∉ available) :
    read_vessel_multiclass_metadata_lines available (pre ++ r :: post) fishing_mmsis
        upweight =
      read_vessel_multiclass_metadata_lines available (pre ++ post) fishing_mmsis
        upweight ∧
    ∀ sp es e, (sp, es) ∈ (read_vessel_multiclass_metadata_lines available
        (pre ++ r :: post) fishing_mmsis upweight).metadata_by_split → e ∈ es →
      e.1 ≠ parse_mmsi r.mmsi := by
  have hni : row_included available r = false := by
    simp [row_included, hna]
  have hic : included_rows available (pre ++ r :: post) =
      included_rows available (pre ++ post) := by
    simp [included_rows, List.filter_append, List.filter_cons, hni]
  constructor
  · unfold read_vessel_multiclass_metadata_lines split_entries split_rows
    rw [hic]
  · intro sp es e hsp hee hem
    have hes : es = split_entries available (pre ++ r :: post) fishing_mmsis upweight sp := by
      simp only [read_vessel_multiclass_metadata_lines, List.mem_cons,
        List.not_mem_nil, or_false, Prod.mk.injEq] at hsp
      rcases hsp with ⟨h1, h2⟩ | ⟨h1, h2⟩ <;> rw [h2, h1]
    subst hes
    rcases mem_split_entries_elim available (pre ++ r :: post) fishing_mmsis upweight sp
      _ hee with ⟨r2, hr2, hsp2, heq⟩
    have hr2i : row_included available r2 = true := (List.mem_filter.mp hr2).2
    have hr2a : parse_mmsi r2.mmsi ∈ available := by
      have := (Bool.and_eq_true _ _).mp hr2i |>.1
      simpa using this
    rw [heq] at hem
    simp only at hem
    rw [hem] at hr2a
    exact hna hr2a

/-- The 12 available data rows of the test CSV (everything but 100013). -/
def test_lines_first12 : List Row :=
  [⟨"100001", "Longliner", "10.0"⟩, ⟨"100002", "Longliner", "24.0"⟩,
   ⟨"100003", "Longliner", "7.0"⟩, ⟨"100004", "Longliner", "8.0"⟩,
   ⟨"100005", "Trawler", "10.0"⟩, ⟨"100006", "Trawler", "24.0"⟩,
   ⟨"100007", "Passenger", "24.0"⟩, ⟨"100008", "Trawler", "24.0"⟩,
   ⟨"100009", "Trawler", "10.0"⟩, ⟨"100010", "Trawler", "24.0"⟩,
   ⟨"100011", "Tug", "60.0"⟩, ⟨"100012", "Tug", "5.0"⟩]

/-- The unavailable thirteenth row of the test CSV. -/
def row100013 : Row := ⟨"100013", "Tug", "24.0"⟩

/-- Witness for C10: row 100013 (whose MMSI is outside 100001..100012)
changes nothing, and 100013 keys no entry. -/
theorem metadata_excludes_unavailable_witness :
    read_vessel_multiclass_metadata_lines available12
        (test_lines_first12 ++ row100013 :: []) [] 1 =
      read_vessel_multiclass_metadata_lines available12 (test_lines_first12 ++ []) [] 1 ∧
    ∀ sp es e, (sp, es) ∈ (read_vessel_multiclass_metadata_lines available12
        (test_lines_first12 ++ row100013 :: []) [] 1).metadata_by_split → e ∈ es →
      e.1 ≠ parse_mmsi row100013.mmsi :=
  metadata_excludes_unavailable available12 test_lines_first12 [] row100013 [] 1
    (by decide)

/-! ## The fixed label taxonomy -/

/-- Modelled from the spec: `VESSEL_CLASS_NAMES`, the coarse class names
of the fixed taxonomy.  The taxonomy constants live in the missing
`utility.py`; only the class names appearing in this source fragment are
known, so the taxonomy is modelled over those. -/
def VESSEL_CLASS_NAMES : List String := ["Longliner", "Trawler", "Passenger", "Tug"]

/-- Modelled from the spec: `VESSEL_CLASS_DETAILED_NAMES`, the fine
(sub-)class names of the fixed taxonomy. -/
def VESSEL_CLASS_DETAILED_NAMES : List String :=
  ["Longliner", "Trawler", "Passenger", "Tug"]

/-- Modelled from the spec: `FISHING_NONFISHING_NAMES`. -/
def FISHING_NONFISHING_NAMES : List String := ["Fishing", "Non-fishing"]

/-- Modelled from the spec: `VESSEL_CATEGORIES` — for each category
scheme, the list of (category name, fine labels in the category), with
the shape `MultihotLabelConsistencyTest` traverses. -/
def VESSEL_CATEGORIES : List (String × List (String × List String)) :=
  [("coarse",
    [("Longliner", ["Longliner"]), ("Trawler", ["Trawler"]),
     ("Passenger", ["Passenger"]), ("Tug", ["Tug"])]),
   ("fishing",
    [("Fishing", ["Longliner", "Trawler"]),
     ("Non-fishing", ["Passenger", "Tug"])])]

/-- `VESSEL_CATEGORIES[name]`. -/
def category_entries (name : String) : List (String × List String) :=
  ((VESSEL_CATEGORIES.find? (fun c => c.1 == name)).map Prod.snd).getD []

/-- Every fine label listed anywhere across `VESSEL_CATEGORIES`. -/
def all_fine_labels : List String :=
  VESSEL_CATEGORIES.flatMap (fun c => c.2.flatMap Prod.snd)

/-- C8.  The fixed label taxonomy is internally consistent: the fine
labels listed across `VESSEL_CATEGORIES` are exactly the set
`VESSEL_CLASS_DETAILED_NAMES`, the category names of
`VESSEL_CATEGORIES['coarse']` are exactly the set `VESSEL_CLASS_NAMES`,
and the category names of `VESSEL_CATEGORIES['fishing']` are exactly the
set `FISHING_NONFISHING_NAMES`. -/
theorem taxonomy_consistent :
    (∀ x ∈ all_fine_labels, x ∈ VESSEL_CLASS_DETAILED_NAMES) ∧
    (∀ x ∈ VESSEL_CLASS_DETAILED_NAMES, x ∈ all_fine_labels) ∧
    (∀ x ∈ (category_entries "coarse").map Prod.fst, x ∈ VESSEL_CLASS_NAMES) ∧
    (∀ x ∈ VESSEL_CLASS_NAMES, x ∈ (category_entries "coarse").map Prod.fst) ∧
    (∀ x ∈ (category_entries "fishing").map Prod.fst, x ∈ FISHING_NONFISHING_NAMES) ∧
    (∀ x ∈ FISHING_NONFISHING_NAMES, x ∈ (category_entries "fishing").map Prod.fst) := by
  decide
